import Mathlib

/-!
Verification of the i18n / SEO utility layer of the `vinc-placement-website`
repository (`src/i18n/utils.ts` and `src/utils/seo.ts`), as a shallow
embedding in Lean 4.

Strings are embedded as Lean `String`; the JavaScript string primitives the
source uses (`startsWith`, `slice`, `split` on a one-character separator) are
modelled character-wise over `String.data`.  JavaScript's loosely typed
translation values (`string | string[] | nested object | undefined`) are
embedded as the tagged variant `JSValue`, with JavaScript truthiness and
member access (`result[k]`) made explicit.  The site configuration
(`SITE_CONFIG`, `SEO_KEYWORDS` of `src/utils/constants.ts`) is embedded as
concrete constants.  The locale JSON documents are not part of the
repository's staged sources, so translation trees are explicit parameters,
per the spec's data model.
-/

namespace Vinc

/-! ## JavaScript string primitives, modelled character-wise -/

/-- JS `s.startsWith(pre)`: `pre` is a character-wise prefix of `s`. -/
def jsStartsWith (s pre : String) : Bool :=
  pre.data.isPrefixOf s.data

/-- JS `s.slice(n)` for a nonnegative `n`: drop the first `n` characters. -/
def jsDrop (s : String) (n : Nat) : String :=
  ⟨s.data.drop n⟩

/-- Character-level splitter behind JS `s.split(c)` for a one-character
separator: splits a character list at every occurrence of `c`, keeping empty
blocks.  Always returns at least one block. -/
def splitCharList (c : Char) : List Char → List (List Char)
  | [] => [[]]
  | x :: xs =>
    let r := splitCharList c xs
    if x = c then [] :: r
    else (x :: r.headD []) :: r.tail

/-- JS `s.split(c)` for a one-character separator `c`. -/
def jsSplit (s : String) (c : Char) : List String :=
  (splitCharList c s.data).map (fun l => ⟨l⟩)

/-- JS `s.toLowerCase()`, character-wise (the language tags it is applied to
are ASCII). -/
def jsToLower (s : String) : String :=
  ⟨s.data.map Char.toLower⟩

/-- JS `a || b` on strings, where an absent (`undefined`) or empty string is
falsy and selects `b`. -/
def jsOrString (a : Option String) (b : String) : String :=
  match a with
  | some s => if s = "" then b else s
  | none => b

/-! ## Data model: languages (`src/i18n/utils.ts`) -/

/-- The closed union type `Language = 'en' | 'ja' | 'th'` of `@/types`. -/
inductive Language where
  | en
  | ja
  | th
deriving DecidableEq

/-- The string tag a `Language` value stands for in the source. -/
def langCode : Language → String
  | .en => "en"
  | .ja => "ja"
  | .th => "th"

/-- `DEFAULT_LANG`: the default language is Japanese. -/
def DEFAULT_LANG : Language := Language.ja

/-- `LANGUAGES`: all supported languages, in declared order. -/
def LANGUAGES : List Language := [Language.en, Language.ja, Language.th]

/-! ## Data model: translation trees

The locale documents `en.json` / `ja.json` / `th.json` are not among the
staged sources.  Modelled from the spec: a translation tree maps string keys
to a leaf (string, or ordered sequence of strings) or a nested tree; the
extra constructor `undefined` stands for JavaScript's `undefined`, the "absent"
sentinel produced by a failed member access. -/

/-- The JavaScript values the translation walk in `t` can encounter. -/
inductive JSValue where
  | undefined
  | str (s : String)
  | arr (xs : List String)
  | obj (fields : List (String × JSValue))

/-- JS truthiness on `JSValue`: `undefined` and `""` are falsy; arrays and
objects (even empty ones) are truthy. -/
def truthy : JSValue → Bool
  | .undefined => false
  | .str s => s ≠ ""
  | .arr _ => true
  | .obj _ => true

/-- The guard `result && typeof result === 'object'` of the loop in `t`:
arrays and objects are the `'object'`-typed truthy values. -/
def isTruthyObject : JSValue → Bool
  | .arr _ => true
  | .obj _ => true
  | _ => false

/-- JS array access `xs[k]` by a string key: hits iff `k` is the canonical
decimal numeral of an index into `xs`. -/
def arrIndex? (k : String) (xs : List String) : Option String :=
  match k.toNat? with
  | some i => if toString i = k then xs.get? i else none
  | none => none

/-- JS member access `result[k]` as used by the loop in `t`; an absent member
is `undefined`. -/
def getField : JSValue → String → JSValue
  | .obj fields, k =>
    match fields.lookup k with
    | some v => v
    | none => .undefined
  | .arr xs, k =>
    match arrIndex? k xs with
    | some s => .str s
    | none => .undefined
  | _, _ => .undefined

/-- JS `fallback || key`: the fallback when it is truthy, else the key. -/
def fallbackOrKey (fallback : Option JSValue) (key : String) : JSValue :=
  match fallback with
  | some v => if truthy v then v else .str key
  | none => .str key

/-- The segment walk of `t`: `for (const k of keys) { ... }` followed by the
final `result !== undefined ? result : fallback || key`. -/
def tGo (fallback : Option JSValue) (key : String) : List String → JSValue → JSValue
  | [], result =>
    match result with
    | .undefined => fallbackOrKey fallback key
    | v => v
  | k :: ks, result =>
    if isTruthyObject result then tGo fallback key ks (getField result k)
    else fallbackOrKey fallback key

/-- `t(lang, key, fallback?)` of `src/i18n/utils.ts`, over an explicit
translation table.  The source's `translations[lang] || translations[DEFAULT_LANG]`
degenerates to `translations lang`: `Language` is a closed enum and every
tree is a truthy imported JSON object. -/
def t (translations : Language → JSValue) (lang : Language) (key : String)
    (fallback : Option JSValue) : JSValue :=
  tGo fallback key (jsSplit key '.') (translations lang)

/-- Presence of a dot-path in a translation tree, per the spec's data model:
walk object fields (and array positions) segment by segment; the stored value
is the one the full path ends at.  A stored `undefined` counts as absent. -/
def lookupPath : JSValue → List String → Option JSValue
  | .undefined, [] => none
  | v, [] => some v
  | .obj fields, k :: ks =>
    match fields.lookup k with
    | some v => lookupPath v ks
    | none => none
  | .arr xs, k :: ks =>
    match arrIndex? k xs with
    | some s => lookupPath (.str s) ks
    | none => none
  | _, _ :: _ => none

/-! ## Browser language detection (`src/i18n/utils.ts`) -/

/-- The browser `navigator` surface `detectBrowserLanguage` reads:
`navigator.language` (possibly absent) and `navigator.languages`. -/
structure BrowserNavigator where
  language : Option String
  languages : List String

/-- `detectBrowserLanguage()`: the ambient browser window is modelled as an
optional `BrowserNavigator` (`none` = `typeof window === 'undefined'`). -/
def detectBrowserLanguage (window : Option BrowserNavigator) : Language :=
  match window with
  | none => DEFAULT_LANG
  | some navigator =>
    let browserLang := jsOrString navigator.language
      (jsOrString navigator.languages.head? "en")
    let segment := jsToLower ((jsSplit browserLang '-').headD "")
    match LANGUAGES.find? (fun l => langCode l == segment) with
    | some l => l
    | none => DEFAULT_LANG

/-- Drops a falsy (absent or empty) advertised preference. -/
def nonEmptyPref : Option String → Option String
  | some s => if s = "" then none else some s
  | none => none

/-- The first environment-advertised language preference: `navigator.language`
when truthy, else the head of `navigator.languages` when truthy. -/
def firstPreference (navigator : BrowserNavigator) : Option String :=
  match nonEmptyPref navigator.language with
  | some s => some s
  | none => nonEmptyPref navigator.languages.head?

/-! ## Language from URL path (`src/i18n/utils.ts`) -/

/-- The GitHub-Pages deployment base path stripped by `getLangFromUrl`. -/
def BASE_PATH : String := "/vinc-placement-website"

/-- The base-path strip at the head of `getLangFromUrl`: the guarded
`pathname.replace('/vinc-placement-website', '')` removes the leading
occurrence, i.e. the first `BASE_PATH.length` characters. -/
def stripBasePath (pathname : String) : String :=
  if jsStartsWith pathname (BASE_PATH ++ "/") then jsDrop pathname BASE_PATH.length
  else pathname

/-- `getLangFromUrl(url)` of `src/i18n/utils.ts`, over the URL's pathname:
`const [, langSegment] = pathname.split('/')` reads the component after the
first `/`, and `langSegment && LANGUAGES.includes(langSegment)` guards the
match. -/
def getLangFromUrl (pathname : String) : Language :=
  let pathname' := stripBasePath pathname
  let langSegment := (jsSplit pathname' '/').getD 1 ""
  if langSegment = "" then DEFAULT_LANG
  else
    match LANGUAGES.find? (fun l => langCode l == langSegment) with
    | some l => l
    | none => DEFAULT_LANG

/-- The claim's reading of `getLangFromUrl` ("tests the first non-empty
slash-separated segment"), written from the claim's words only, to be
compared against the code's behaviour. -/
def getLangFromUrlFirstNonEmpty (pathname : String) : Language :=
  let pathname' := stripBasePath pathname
  match ((jsSplit pathname' '/').filter (fun s => s ≠ "")).head? with
  | some segment =>
    match LANGUAGES.find? (fun l => langCode l == segment) with
    | some l => l
    | none => DEFAULT_LANG
  | none => DEFAULT_LANG

/-! ## Alternate URLs and language-prefix removal (`src/i18n/utils.ts`) -/

/-- One `{ lang, href }` entry of `getAlternateUrls`. -/
structure AlternateUrl where
  lang : Language
  href : String
deriving DecidableEq

/-- `getAlternateUrls(currentPath)`: one entry per supported language, in
declared order, with `href = '/' + lang + currentPath`. -/
def getAlternateUrls (currentPath : String) : List AlternateUrl :=
  LANGUAGES.map (fun lang => ⟨lang, "/" ++ langCode lang ++ currentPath⟩)

/-- `removeLanguagePrefix(path)`: drop one leading slash, strip the first
matching `'<lang>/'` prefix (or the bare `'<lang>'`), and re-add a leading
slash. -/
def removeLanguagePrefix (path : String) : String :=
  let pathWithoutLeadingSlash := if jsStartsWith path "/" then jsDrop path 1 else path
  match LANGUAGES.find? (fun lang =>
      jsStartsWith pathWithoutLeadingSlash (langCode lang ++ "/") ||
      pathWithoutLeadingSlash == langCode lang) with
  | some lang => "/" ++ jsDrop pathWithoutLeadingSlash ((langCode lang).length + 1)
  | none => "/" ++ pathWithoutLeadingSlash

/-! ## Site configuration (`src/utils/constants.ts`) and the SEO metadata
builder (`src/utils/seo.ts`) -/

/-- The static fields of the `SITE_CONFIG` record of `src/utils/constants.ts`.
The one field left out is `currentYear`, computed as
`new Date().getFullYear()`: it is not a compile-time constant, and none of
the functions under proof read it. -/
structure SiteConfig where
  name : String
  title : String
  domain : String
  url : String
  description : String
  locale : String
  themeColor : String
  foundedYear : Nat

/-- `SITE_CONFIG` of `src/utils/constants.ts`. -/
def SITE_CONFIG : SiteConfig :=
  { name := "VINC Placement"
    title := "VINC Placement Co., Ltd."
    domain := "www.vincplacement.com"
    url := "https://www.vincplacement.com"
    description := "Leading workforce solutions in Asia since 1988"
    locale := "en_US"
    themeColor := "#3b82f6"
    foundedYear := 1988 }

/-- `SEO_KEYWORDS` of `src/utils/constants.ts`: the site-wide default
keywords, in declared order. -/
def SEO_KEYWORDS : List String :=
  ["Thai workers for Japan",
   "Japan job placement Thailand",
   "Thai workers recruitment",
   "Work in Japan from Thailand",
   "Japanese factory jobs for Thai",
   "Thai engineers Japan",
   "Japan workforce solutions",
   "Thai blue collar workers Japan",
   "Japanese construction workers Thailand",
   "Thailand Japan employment agency",
   "Thai workers Japan visa",
   "Japan job opportunities Thailand",
   "Thai workers Japan placement",
   "Japanese companies Thai workers",
   "Thailand Japan workforce deployment"]

/-- The `SEOMeta` record `generateSEOMeta` returns. -/
structure SEOMeta where
  title : String
  description : String
  keywords : List String
  image : String
  canonical : String
  lang : Language
  alternates : List AlternateUrl

/-- `generateSEOMeta(params)` of `src/utils/seo.ts`, reading the imported
`SITE_CONFIG` and `SEO_KEYWORDS` constants.  The source's destructuring
defaults (`path = '/'`, `keywords = []`, `image = '/images/og-image.jpg'`)
are supplied by the caller here. -/
def generateSEOMeta (title description : String) (lang : Language) (path : String)
    (keywords : List String) (image : String) : SEOMeta :=
  let allKeywords := SEO_KEYWORDS ++ keywords
  let fullTitle := title ++ " | " ++ SITE_CONFIG.name
  let canonical := SITE_CONFIG.url ++ "/" ++ langCode lang ++ path
  let alternates := getAlternateUrls path
  { title := fullTitle
    description := description
    keywords := allKeywords
    image := SITE_CONFIG.url ++ image
    canonical := canonical
    lang := lang
    alternates := alternates }

/-- One caller-supplied breadcrumb entry. -/
structure BreadcrumbItem where
  name : String
  url : String

/-- One `ListItem` of the breadcrumb JSON-LD. -/
structure BreadcrumbListItem where
  position : Nat
  name : String
  item : String
deriving DecidableEq

/-- The breadcrumb JSON-LD record (`@context` / `@type` constants and the
item list). -/
structure BreadcrumbSchema where
  context : String
  schemaType : String
  itemListElement : List BreadcrumbListItem

/-- `generateBreadcrumbSchema(items)` of `src/utils/seo.ts`:
`items.map((item, index) => ({ position: index + 1, ... }))`, reading the
imported `SITE_CONFIG` constant. -/
def generateBreadcrumbSchema (items : List BreadcrumbItem) : BreadcrumbSchema :=
  { context := "https://schema.org"
    schemaType := "BreadcrumbList"
    itemListElement := items.mapIdx (fun index item =>
      ⟨index + 1, item.name, SITE_CONFIG.url ++ item.url⟩) }

/-! ## Sanity examples -/

example : jsSplit "/ja/about" '/' = ["", "ja", "about"] := by decide
example : jsSplit "" '/' = [""] := by decide
example : jsSplit "nav.home" '.' = ["nav", "home"] := by decide
example : removeLanguagePrefix "/en/about" = "/about" := by decide
example : removeLanguagePrefix "/ja/" = "/" := by decide
example : removeLanguagePrefix "en" = "/" := by decide
example : getLangFromUrl "/ja/about" = Language.ja := by decide
example : getLangFromUrl "/contact" = DEFAULT_LANG := by decide
example : getLangFromUrl "/vinc-placement-website/en/x" = Language.en := by decide
example :
    t (fun _ => JSValue.obj [("nav", JSValue.obj [("home", JSValue.str "Home")])])
      Language.en "nav.home" none = JSValue.str "Home" := rfl

/-! ## Lemmas about the translation walk -/

/-- The walk on `undefined` always ends in the fallback policy. -/
theorem tGo_undefined (fallback : Option JSValue) (key : String) (segs : List String) :
    tGo fallback key segs JSValue.undefined = fallbackOrKey fallback key := by
  cases segs <;> simp [tGo, isTruthyObject]

/-- A present path is resolved to its stored value, whatever the fallback. -/
theorem tGo_of_lookupPath_some (fallback : Option JSValue) (key : String) :
    ∀ (segs : List String) (v r : JSValue),
      lookupPath v segs = some r → tGo fallback key segs v = r := by
  intro segs
  induction segs with
  | nil =>
    intro v r h
    cases v <;> simp_all [lookupPath, tGo]
  | cons k ks ih =>
    intro v r h
    cases v with
    | undefined => simp [lookupPath] at h
    | str s => simp [lookupPath] at h
    | arr xs =>
      rw [lookupPath] at h
      cases hx : arrIndex? k xs with
      | none => rw [hx] at h; cases h
      | some s =>
        rw [hx] at h
        simpa [tGo, isTruthyObject, getField, hx] using ih _ _ h
    | obj fields =>
      rw [lookupPath] at h
      cases hx : fields.lookup k with
      | none => rw [hx] at h; cases h
      | some v2 =>
        rw [hx] at h
        simpa [tGo, isTruthyObject, getField, hx] using ih _ _ h

/-- An absent path always ends in the fallback policy. -/
theorem tGo_of_lookupPath_none (fallback : Option JSValue) (key : String) :
    ∀ (segs : List String) (v : JSValue),
      lookupPath v segs = none → tGo fallback key segs v = fallbackOrKey fallback key := by
  intro segs
  induction segs with
  | nil =>
    intro v h
    cases v <;> simp_all [lookupPath, tGo]
  | cons k ks ih =>
    intro v h
    cases v with
    | undefined => exact tGo_undefined fallback key _
    | str s => simp [tGo, isTruthyObject]
    | arr xs =>
      rw [lookupPath] at h
      cases hx : arrIndex? k xs with
      | none => simp [tGo, isTruthyObject, getField, hx, tGo_undefined]
      | some s =>
        rw [hx] at h
        simpa [tGo, isTruthyObject, getField, hx] using ih _ h
    | obj fields =>
      rw [lookupPath] at h
      cases hx : fields.lookup k with
      | none => simp [tGo, isTruthyObject, getField, hx, tGo_undefined]
      | some v2 =>
        rw [hx] at h
        simpa [tGo, isTruthyObject, getField, hx] using ih _ h

/-- The fallback policy never produces the absent sentinel. -/
theorem fallbackOrKey_ne_undefined (fallback : Option JSValue) (key : String) :
    fallbackOrKey fallback key ≠ JSValue.undefined := by
  cases fallback with
  | none => simp [fallbackOrKey]
  | some v =>
    cases v <;> simp only [fallbackOrKey, truthy] <;> intro h <;> split at h <;>
      simp_all

/-- A concrete translation table used by the witnesses: the spec's example
tree `{nav: {home: "Home"}}` for every language. -/
def exampleTranslations : Language → JSValue := fun _ =>
  JSValue.obj [("nav", JSValue.obj [("home", JSValue.str "Home")])]

/-! ## Claim theorems -/

/-- C1: for every supported language `L` and every key `K` whose dot-delimited
path is present in `L`'s translation tree, `t(L, K)` returns exactly the leaf
value stored at that path (string, ordered sequence of strings, or sub-tree),
unchanged — whatever the optional fallback. -/
theorem t_returns_stored_leaf (translations : Language → JSValue) (lang : Language)
    (key : String) (fallback : Option JSValue) (v : JSValue)
    (h : lookupPath (translations lang) (jsSplit key '.') = some v) :
    t translations lang key fallback = v :=
  tGo_of_lookupPath_some fallback key _ _ _ h

/-- Witness for C1: `t('en', 'nav.home')` on the tree `{nav: {home: "Home"}}`
returns `"Home"`. -/
theorem t_returns_stored_leaf_witness :
    t exampleTranslations Language.en "nav.home" none = JSValue.str "Home" :=
  t_returns_stored_leaf exampleTranslations Language.en "nav.home" none
    (JSValue.str "Home") rfl

/-- Counterexample to C2 as stated: on an absent key with the supplied
fallback `""` (a falsy JavaScript string), `t` returns the key, not the
supplied fallback. -/
theorem t_falsy_fallback_counterexample :
    lookupPath (exampleTranslations Language.en) (jsSplit "nav.missing" '.') = none ∧
    t exampleTranslations Language.en "nav.missing" (some (JSValue.str ""))
      = JSValue.str "nav.missing" ∧
    JSValue.str "nav.missing" ≠ JSValue.str "" := by
  refine ⟨rfl, rfl, ?_⟩
  simp only [ne_eq, JSValue.str.injEq]
  decide

/-- C2 (amended): for a key whose path is absent from the tree, `t` returns
the key when no fallback is given, and the supplied fallback only when that
fallback is truthy — a falsy fallback (such as the empty string) yields the
original key instead (JS `fallback || key`). -/
theorem t_absent_key_policy (translations : Language → JSValue) (lang : Language)
    (key : String)
    (h : lookupPath (translations lang) (jsSplit key '.') = none) :
    t translations lang key none = JSValue.str key ∧
    ∀ v : JSValue, t translations lang key (some v)
      = if truthy v then v else JSValue.str key := by
  constructor
  · exact tGo_of_lookupPath_none none key _ _ h
  · intro v
    exact tGo_of_lookupPath_none (some v) key _ _ h

/-- Witness for C2 (amended): on the absent key `'nav.missing'`, no fallback
gives the key back and the truthy fallback `"Fallback"` is returned. -/
theorem t_absent_key_policy_witness :
    t exampleTranslations Language.en "nav.missing" none = JSValue.str "nav.missing" ∧
    t exampleTranslations Language.en "nav.missing" (some (JSValue.str "Fallback"))
      = JSValue.str "Fallback" := by
  have h := t_absent_key_policy exampleTranslations Language.en "nav.missing" rfl
  exact ⟨h.1, (h.2 (JSValue.str "Fallback")).trans rfl⟩

/-- C9: `t` is total (a Lean function) and never returns the absent sentinel
`undefined`: for every translation table, language, key and optional
fallback, the result is a defined value (a stored translation, the supplied
fallback, or the raw key string). -/
theorem t_never_undefined (translations : Language → JSValue) (lang : Language)
    (key : String) (fallback : Option JSValue) :
    t translations lang key fallback ≠ JSValue.undefined := by
  unfold t
  generalize jsSplit key '.' = segs
  generalize translations lang = v
  induction segs generalizing v with
  | nil =>
    cases v with
    | undefined => exact fallbackOrKey_ne_undefined _ _
    | str s => simp [tGo]
    | arr xs => simp [tGo]
    | obj fields => simp [tGo]
  | cons k ks ih =>
    rw [tGo]
    split
    · exact ih _
    · exact fallbackOrKey_ne_undefined _ _

/-- C4: `getAlternateUrls p` returns exactly three entries, one per supported
language in the declared order `['en','ja','th']`, with no filtering of the
current language; the `href` for language `lang` is `'/' + lang + p`. -/
theorem getAlternateUrls_spec (p : String) :
    getAlternateUrls p =
      [⟨Language.en, "/" ++ "en" ++ p⟩, ⟨Language.ja, "/" ++ "ja" ++ p⟩,
       ⟨Language.th, "/" ++ "th" ++ p⟩] ∧
    (getAlternateUrls p).length = 3 :=
  ⟨rfl, rfl⟩

/-- C6: `generateSEOMeta` returns a record whose title is the page title with
`' | '` and the site name appended, whose canonical URL is the site base URL
`+ '/' + lang + path`, and whose keywords are the site-wide defaults followed
in order by the page keywords, duplicates preserved. -/
theorem generateSEOMeta_spec (title description : String) (lang : Language)
    (path : String) (keywords : List String) (image : String) :
    (generateSEOMeta title description lang path keywords image).title
      = title ++ " | " ++ SITE_CONFIG.name ∧
    (generateSEOMeta title description lang path keywords image).canonical
      = SITE_CONFIG.url ++ "/" ++ langCode lang ++ path ∧
    (generateSEOMeta title description lang path keywords image).keywords
      = SEO_KEYWORDS ++ keywords :=
  ⟨rfl, rfl, rfl⟩

/-- C10: `generateBreadcrumbSchema` maps the input breadcrumb list to an
`itemListElement` list of the same length and order, where the entry at index
`i` has position `i + 1`, the input's name, and the site base URL prepended
to the input's url. -/
theorem generateBreadcrumbSchema_spec (items : List BreadcrumbItem) (i : Nat)
    (h : i < items.length) :
    (generateBreadcrumbSchema items).itemListElement.length = items.length ∧
    (generateBreadcrumbSchema items).itemListElement.getD i ⟨0, "", ""⟩
      = ⟨i + 1, (items.getD i ⟨"", ""⟩).name,
          SITE_CONFIG.url ++ (items.getD i ⟨"", ""⟩).url⟩ := by
  constructor
  · simp [generateBreadcrumbSchema, List.length_mapIdx]
  · simp only [generateBreadcrumbSchema]
    rw [List.getD_eq_getElem?_getD, List.getD_eq_getElem?_getD,
      List.getElem?_mapIdx, List.getElem?_eq_getElem h]
    rfl

/-- Witness for C10: a two-item breadcrumb list at index 1, against the
site's real base URL. -/
theorem generateBreadcrumbSchema_spec_witness :
    (generateBreadcrumbSchema
        [⟨"Home", "/"⟩, ⟨"About", "/about"⟩]).itemListElement.getD 1 ⟨0, "", ""⟩
      = ⟨2, "About", "https://www.vincplacement.com/about"⟩ :=
  (generateBreadcrumbSchema_spec
    [⟨"Home", "/"⟩, ⟨"About", "/about"⟩] 1 (by decide)).2.trans (by decide)

/-- C7: `detectBrowserLanguage` returns the default language unconditionally
when no browser environment exists; otherwise it consults only the first
environment-advertised language preference, extracts the leading subtag
before any regional suffix, lower-cases it, and returns it when supported,
the default language otherwise. -/
theorem detectBrowserLanguage_spec :
    detectBrowserLanguage none = DEFAULT_LANG ∧
    ∀ (navigator : BrowserNavigator) (s : String),
      firstPreference navigator = some s →
      detectBrowserLanguage (some navigator) =
        match LANGUAGES.find?
            (fun l => langCode l == jsToLower ((jsSplit s '-').headD "")) with
        | some l => l
        | none => DEFAULT_LANG := by
  refine ⟨rfl, ?_⟩
  intro navigator s h
  obtain ⟨lopt, langs⟩ := navigator
  have hb : jsOrString lopt (jsOrString langs.head? "en") = s := by
    cases lopt with
    | some u =>
      by_cases hu : u = ""
      · subst hu
        cases langs with
        | nil => simp [firstPreference, nonEmptyPref] at h
        | cons w ws =>
          by_cases hw : w = ""
          · simp [firstPreference, nonEmptyPref, hw] at h
          · simp [firstPreference, nonEmptyPref, hw] at h
            subst h
            simp [jsOrString, hw]
      · simp [firstPreference, nonEmptyPref, hu] at h
        subst h
        simp [jsOrString, hu]
    | none =>
      cases langs with
      | nil => simp [firstPreference, nonEmptyPref] at h
      | cons w ws =>
        by_cases hw : w = ""
        · simp [firstPreference, nonEmptyPref, hw] at h
        · simp [firstPreference, nonEmptyPref, hw] at h
          subst h
          simp [jsOrString, hw]
  simp only [detectBrowserLanguage, hb]

/-- Witness for C7: `navigator.language = 'en-US'` detects `en`, and an
absent browser environment yields the default language. -/
theorem detectBrowserLanguage_spec_witness :
    detectBrowserLanguage (some ⟨some "en-US", []⟩) = Language.en ∧
    detectBrowserLanguage none = DEFAULT_LANG := by
  refine ⟨?_, detectBrowserLanguage_spec.1⟩
  exact (detectBrowserLanguage_spec.2 ⟨some "en-US", []⟩ "en-US" rfl).trans (by decide)

/-! ## Lemmas about slash handling -/

/-- A string extended on the left with `'/'` starts with `'/'`. -/
theorem jsStartsWith_slash_append (r : String) :
    jsStartsWith ("/" ++ r) "/" = true := by
  show List.isPrefixOf ['/'] ('/' :: r.data) = true
  simp [List.isPrefixOf]

/-- Dropping one character after prepending `'/'` is the identity. -/
theorem jsDrop_slash_append (r : String) : jsDrop ("/" ++ r) 1 = r := rfl

/-- A string starting with `'/'` is `'/'` consed onto its tail. -/
theorem data_of_jsStartsWith_slash (p : String) (h : jsStartsWith p "/" = true) :
    ∃ tail : List Char, p.data = '/' :: tail := by
  have h2 : ['/'] <+: p.data := by
    rw [← List.isPrefixOf_iff_prefix]
    exact h
  obtain ⟨tail, ht⟩ := h2
  exact ⟨tail, ht.symm⟩

/-- Putting the leading slash back after `slice(1)` restores the path. -/
theorem slash_append_jsDrop (p : String) (h : jsStartsWith p "/" = true) :
    "/" ++ jsDrop p 1 = p := by
  obtain ⟨tail, ht⟩ := data_of_jsStartsWith_slash p h
  cases p with
  | mk d =>
    have hd : d = '/' :: tail := ht
    subst hd
    rfl

/-- `removeLanguagePrefix` always returns a string of the form `'/' ++ r`. -/
theorem removeLanguagePrefix_shape (p : String) :
    ∃ r : String, removeLanguagePrefix p = "/" ++ r := by
  simp only [removeLanguagePrefix]
  split
  · exact ⟨_, rfl⟩
  · exact ⟨_, rfl⟩

/-- On a slash-prefixed path whose remainder matches no supported-language
prefix, `removeLanguagePrefix` is the identity. -/
theorem removeLanguagePrefix_no_match (r : String)
    (h : LANGUAGES.find? (fun lang =>
        jsStartsWith r (langCode lang ++ "/") || r == langCode lang) = none) :
    removeLanguagePrefix ("/" ++ r) = "/" ++ r := by
  simp only [removeLanguagePrefix, jsStartsWith_slash_append, if_true,
    jsDrop_slash_append, h]

/-- Counterexample to C3 as stated: a path carrying two stacked language
prefixes is stripped once per application, so applying the function twice
differs from applying it once. -/
theorem removeLanguagePrefix_not_idempotent :
    removeLanguagePrefix "/en/ja/about" = "/ja/about" ∧
    removeLanguagePrefix (removeLanguagePrefix "/en/ja/about") = "/about" ∧
    removeLanguagePrefix (removeLanguagePrefix "/en/ja/about")
      ≠ removeLanguagePrefix "/en/ja/about" := by
  refine ⟨by decide, by decide, by decide⟩

/-- C3 (amended): `removeLanguagePrefix` is idempotent on every path whose
once-stripped result does not itself begin with a supported-language prefix
(equivalently, on every path not carrying two stacked language prefixes). -/
theorem removeLanguagePrefix_idempotent_unless_stacked (p : String)
    (h : LANGUAGES.find? (fun lang =>
        jsStartsWith (jsDrop (removeLanguagePrefix p) 1) (langCode lang ++ "/") ||
        jsDrop (removeLanguagePrefix p) 1 == langCode lang) = none) :
    removeLanguagePrefix (removeLanguagePrefix p) = removeLanguagePrefix p := by
  obtain ⟨r, hr⟩ := removeLanguagePrefix_shape p
  rw [hr] at h ⊢
  rw [jsDrop_slash_append] at h
  exact removeLanguagePrefix_no_match r h

/-- Witness for C3 (amended): a single language prefix is stripped
idempotently. -/
theorem removeLanguagePrefix_idempotent_unless_stacked_witness :
    removeLanguagePrefix (removeLanguagePrefix "/en/about")
      = removeLanguagePrefix "/en/about" :=
  removeLanguagePrefix_idempotent_unless_stacked "/en/about" (by decide)

/-- Counterexample to C8 as stated: on `'//about'` (no language prefix) the
result keeps both leading slashes — it is not normalized to exactly one
leading slash. -/
theorem removeLanguagePrefix_double_slash_counterexample :
    removeLanguagePrefix "//about" = "//about" ∧
    jsStartsWith (removeLanguagePrefix "//about") "//" = true ∧
    removeLanguagePrefix "//about" ≠ "/about" := by
  refine ⟨by decide, by decide, by decide⟩

/-- C8 (amended): when no supported-language prefix is found after removing a
leading slash, `removeLanguagePrefix` returns the path unchanged if it
already begins with a slash, and prepends a single slash otherwise (extra
leading slashes are not collapsed). -/
theorem removeLanguagePrefix_no_prefix_found (p : String)
    (h : LANGUAGES.find? (fun lang =>
        jsStartsWith (if jsStartsWith p "/" then jsDrop p 1 else p)
            (langCode lang ++ "/") ||
        (if jsStartsWith p "/" then jsDrop p 1 else p) == langCode lang) = none) :
    removeLanguagePrefix p = if jsStartsWith p "/" then p else "/" ++ p := by
  by_cases hs : jsStartsWith p "/" = true
  · simp only [removeLanguagePrefix, hs, if_true] at h ⊢
    rw [h, slash_append_jsDrop p hs]
  · have hs2 : jsStartsWith p "/" = false := by
      cases hb : jsStartsWith p "/"
      · rfl
      · exact absurd hb hs
    simp only [removeLanguagePrefix, hs2, Bool.false_eq_true, if_false] at h ⊢
    rw [h]

/-- Witness for C8 (amended): a slash-less path gets one slash prepended. -/
theorem removeLanguagePrefix_no_prefix_found_witness :
    removeLanguagePrefix "about" = "/about" :=
  (removeLanguagePrefix_no_prefix_found "about" (by decide)).trans (by decide)

/-! ## Lemmas about the URL-path split -/

/-- The split never produces an empty block list. -/
theorem splitCharList_ne_nil (c : Char) (l : List Char) : splitCharList c l ≠ [] := by
  cases l with
  | nil => simp [splitCharList]
  | cons x xs =>
    simp only [splitCharList]
    split <;> simp

/-- The first block of the split is the longest separator-free head. -/
theorem headD_splitCharList (c : Char) (l : List Char) :
    (splitCharList c l).headD [] = l.takeWhile (fun x => x ≠ c) := by
  induction l with
  | nil => rfl
  | cons x xs ih =>
    simp only [splitCharList]
    split
    · simp_all [List.takeWhile_cons]
    · simp only [List.headD_cons, List.takeWhile_cons]
      simp_all

/-- Splitting a slash-headed path on `'/'` and taking the component after the
first slash yields the longest slash-free run that follows it. -/
theorem getD_one_jsSplit (q : String) (t : List Char) (ht : q.data = '/' :: t) :
    (jsSplit q '/').getD 1 "" = (⟨t.takeWhile (fun x => x ≠ '/')⟩ : String) := by
  simp only [jsSplit, ht, splitCharList, if_pos rfl]
  cases hr : splitCharList '/' t with
  | nil => exact absurd hr (splitCharList_ne_nil '/' t)
  | cons a r =>
    have ha : a = t.takeWhile (fun x => x ≠ '/') := by
      have h2 := headD_splitCharList '/' t
      rw [hr] at h2
      exact h2
    simp [ha]

/-- `find?` only depends on the predicate's values on the list. -/
theorem find?_congr {α : Type} (p q : α → Bool) :
    ∀ xs : List α, (∀ a ∈ xs, p a = q a) → xs.find? p = xs.find? q := by
  intro xs
  induction xs with
  | nil => intro _; rfl
  | cons x xs ih =>
    intro h
    rw [List.find?, List.find?, h x (by simp)]
    cases q x with
    | true => rfl
    | false => exact ih (fun a ha => h a (by simp [ha]))

/-- The separator-free head of `t` equals a separator-free word `cs` exactly
when `t` starts with `cs` followed by the separator, or is `cs` entirely. -/
theorem takeWhile_eq_sep_free (sep : Char) :
    ∀ (cs t : List Char), (∀ a ∈ cs, a ≠ sep) →
      (t.takeWhile (fun x => x ≠ sep) = cs ↔ cs ++ [sep] <+: t ∨ t = cs) := by
  intro cs
  induction cs with
  | nil =>
    intro t _
    cases t with
    | nil => simp
    | cons x xs =>
      by_cases hx : x = sep
      · subst hx
        simp [List.takeWhile_cons, List.cons_prefix_cons]
      · simp [List.takeWhile_cons, hx, List.cons_prefix_cons, Ne.symm hx]
  | cons a cs2 ih =>
    intro t h2
    have ha : a ≠ sep := h2 a (by simp)
    have h2r : ∀ b ∈ cs2, b ≠ sep := fun b hb => h2 b (by simp [hb])
    cases t with
    | nil => simp
    | cons x xs =>
      by_cases hx : x = sep
      · subst hx
        have hpred : decide (x ≠ x) = false := by simp
        rw [List.takeWhile_cons]
        simp only [hpred, Bool.false_eq_true, if_false]
        constructor
        · intro h
          cases h
        · rintro (hp | he)
          · rw [List.cons_append, List.cons_prefix_cons] at hp
            exact absurd hp.1 ha
          · injection he with h1 h2
            exact absurd h1.symm ha
      · have hpred : decide (x ≠ sep) = true := by simp [hx]
        rw [List.takeWhile_cons]
        simp only [hpred, if_true, List.cons_append, List.cons_prefix_cons,
          List.cons.injEq]
        constructor
        · rintro ⟨hxa, htw⟩
          rcases (ih xs h2r).mp htw with hp | he
          · exact Or.inl ⟨hxa.symm, hp⟩
          · exact Or.inr ⟨hxa, he⟩
        · rintro (⟨hax, hp⟩ | ⟨hxa, he⟩)
          · exact ⟨hax.symm, (ih xs h2r).mpr (Or.inl hp)⟩
          · exact ⟨hxa, (ih xs h2r).mpr (Or.inr he)⟩

/-- Base-path stripping preserves a leading slash. -/
theorem stripBasePath_slash (p : String) (h : jsStartsWith p "/" = true) :
    jsStartsWith (stripBasePath p) "/" = true := by
  unfold stripBasePath
  split
  · next hb =>
    have hb2 : ("/vinc-placement-website/").data <+: p.data := by
      rw [← List.isPrefixOf_iff_prefix]
      exact hb
    obtain ⟨tail, htail⟩ := hb2
    show List.isPrefixOf ['/'] ((jsDrop p 23).data) = true
    have hdata : (jsDrop p 23).data = '/' :: tail := by
      show p.data.drop 23 = '/' :: tail
      rw [← htail, List.drop_append_eq_append_drop]
      rfl
    rw [hdata]
    simp [List.isPrefixOf]
  · exact h

/-- On a slash-headed path, the component after the first slash equals a
language code exactly when the path starts with `'/<code>/'` or equals
`'/<code>'`. -/
theorem segment_code_iff (q : String) (t : List Char) (ht : q.data = '/' :: t)
    (l : Language) :
    (langCode l == (⟨List.takeWhile (fun x => x ≠ '/') t⟩ : String))
      = (jsStartsWith q ("/" ++ langCode l ++ "/") || q == ("/" ++ langCode l)) := by
  have hsep : ∀ a ∈ (langCode l).data, a ≠ '/' := by
    cases l <;> decide
  have hdata : ("/" ++ langCode l ++ "/").data
      = ('/' :: (langCode l).data) ++ ['/'] := by
    rw [String.data_append, String.data_append]
    rfl
  have hdata2 : ("/" ++ langCode l).data = '/' :: (langCode l).data := by
    rw [String.data_append]
    rfl
  rw [Bool.eq_iff_iff]
  simp only [beq_iff_eq, Bool.or_eq_true, jsStartsWith, List.isPrefixOf_iff_prefix,
    String.ext_iff, hdata, hdata2, ht, List.cons_append, List.cons_prefix_cons,
    List.cons.injEq, true_and]
  rw [eq_comm]
  exact takeWhile_eq_sep_free '/' (langCode l).data t hsep

/-- Counterexample to C5 as stated: on `'//en/about'` the first non-empty
slash-separated segment is the supported `'en'`, yet the code returns the
default language, because it reads only the component directly after the
first slash. -/
theorem getLangFromUrl_first_nonempty_counterexample :
    getLangFromUrlFirstNonEmpty "//en/about" = Language.en ∧
    getLangFromUrl "//en/about" = DEFAULT_LANG ∧
    Language.en ≠ DEFAULT_LANG := by
  refine ⟨by decide, by decide, by decide⟩

/-- C5 (amended): for every slash-prefixed path, `getLangFromUrl` tests the
segment directly after the leading slash (not the first non-empty segment):
after stripping the deployment base path, it returns language `l` exactly
when the remaining path starts with `'/l/'` or equals `'/l'`, and the
default language otherwise. -/
theorem getLangFromUrl_slash_segment (p : String) (h : jsStartsWith p "/" = true) :
    getLangFromUrl p =
      match LANGUAGES.find? (fun l =>
          jsStartsWith (stripBasePath p) ("/" ++ langCode l ++ "/") ||
          stripBasePath p == ("/" ++ langCode l)) with
      | some l => l
      | none => DEFAULT_LANG := by
  have hq := stripBasePath_slash p h
  obtain ⟨t, ht⟩ := data_of_jsStartsWith_slash _ hq
  have hseg := getD_one_jsSplit (stripBasePath p) t ht
  have hpt : ∀ l ∈ LANGUAGES,
      (fun l => langCode l == (⟨List.takeWhile (fun x => x ≠ '/') t⟩ : String)) l
        = (fun l => jsStartsWith (stripBasePath p) ("/" ++ langCode l ++ "/") ||
            stripBasePath p == ("/" ++ langCode l)) l :=
    fun l _ => segment_code_iff (stripBasePath p) t ht l
  simp only [getLangFromUrl]
  rw [hseg]
  by_cases hone : (⟨List.takeWhile (fun x => x ≠ '/') t⟩ : String) = ""
  · rw [if_pos hone]
    have hnone : LANGUAGES.find? (fun l =>
        jsStartsWith (stripBasePath p) ("/" ++ langCode l ++ "/") ||
        stripBasePath p == ("/" ++ langCode l)) = none := by
      rw [← find?_congr _ _ LANGUAGES hpt, List.find?_eq_none]
      intro l hl
      rw [hone]
      cases l <;> decide
    rw [hnone]
  · rw [if_neg hone, find?_congr _ _ LANGUAGES hpt]

/-- Witness for C5 (amended): `'/ja/about'` resolves to `ja`. -/
theorem getLangFromUrl_slash_segment_witness :
    getLangFromUrl "/ja/about" = Language.ja :=
  (getLangFromUrl_slash_segment "/ja/about" (by decide)).trans (by decide)

end Vinc
